import Mathlib

set_option maxHeartbeats 1000000

/-!
Verification development for the kodek binary decoding library.

The development shallowly embeds the library's data model:
byte order (src/endian.rs), the size hint (src/size.rs), the
byte-order-parameterized primitive codec (src/primitive.rs), the decoding
protocol and its error taxonomy (src/decoder.rs), the concrete fixed-width
binary decoders (src/binary.rs), and the partially-initialized read buffer
(src/read_buf.rs).

Machine integers are modelled as Nat (unsigned) and Int (signed) with the
byte width passed explicitly; a byte slice is a list of naturals, each
understood to be a byte value. Floats are modelled by their IEEE-754 bit
patterns, which is exactly what the Rust float byte conversions operate on
(f32::to_le_bytes is to_bits().to_le_bytes(); no arithmetic is involved).
-/

deriving instance DecidableEq for Except

/-- Models Endian (src/endian.rs): the byte order of a stream of data. -/
inductive Endian where
  | little
  | big
deriving DecidableEq

/-- Models Size (src/size.rs): a nonzero amount of bytes, or unknown. The
Rust Known constructor holds a NonZeroUsize; here known holds a plain Nat
and the smart constructor Size.new performs the zero-to-Unknown
normalization that NonZeroUsize::new induces in the source. -/
inductive Size where
  | unknown
  | known (bytes : Nat)
deriving DecidableEq

/-- Models Size::new (src/size.rs lines 31-37): 0 becomes Unknown,
a positive count becomes Known. -/
def Size.new (bytes : Nat) : Size :=
  match bytes with
  | 0 => Size.unknown
  | n + 1 => Size.known (n + 1)

/-- Models Size::map (src/size.rs lines 94-103): Unknown maps to Unknown,
Known applies the closure and re-normalizes through Size::new. -/
def Size.map (f : Nat → Nat) : Size → Size
  | Size.unknown => Size.unknown
  | Size.known bytes => Size.new (f bytes)

/-- Little-endian byte encoding of a natural into exactly w bytes; models
to_le_bytes of the unsigned integer of byte width w (src/primitive.rs,
prim! macro, lines 183-189). -/
def toLeBytes : Nat → Nat → List Nat
  | 0, _ => []
  | w + 1, v => v % 256 :: toLeBytes w (v / 256)

/-- Little-endian byte decoding; models from_le_bytes of the unsigned
integer whose byte width is the list length (src/primitive.rs lines
176-181). -/
def fromLeBytes : List Nat → Nat
  | [] => 0
  | b :: bs => b + 256 * fromLeBytes bs

/-- Models to_bytes for unsigned integers under an endian choice
(src/primitive.rs lines 183-189): little is to_le_bytes, big is
to_be_bytes, i.e. the little-endian bytes reversed. -/
def natToBytes (w : Nat) (v : Nat) (endian : Endian) : List Nat :=
  match endian with
  | Endian.little => toLeBytes w v
  | Endian.big => (toLeBytes w v).reverse

/-- Models from_bytes for unsigned integers under an endian choice
(src/primitive.rs lines 176-181). -/
def natFromBytes (bytes : List Nat) (endian : Endian) : Nat :=
  match endian with
  | Endian.little => fromLeBytes bytes
  | Endian.big => fromLeBytes bytes.reverse

theorem toLeBytes_length (w v : Nat) : (toLeBytes w v).length = w := by
  induction w generalizing v with
  | zero => rfl
  | succ w ih => simp [toLeBytes, ih]

theorem fromLeBytes_toLeBytes (w v : Nat) :
    fromLeBytes (toLeBytes w v) = v % 256 ^ w := by
  induction w generalizing v with
  | zero => simp [toLeBytes, fromLeBytes, Nat.mod_one]
  | succ w ih =>
    rw [toLeBytes, fromLeBytes, ih, Nat.pow_succ, Nat.mul_comm (256 ^ w) 256,
      Nat.mod_mul]

theorem natFromBytes_natToBytes (w v : Nat) (e : Endian) :
    natFromBytes (natToBytes w v e) e = v % 256 ^ w := by
  cases e with
  | little => exact fromLeBytes_toLeBytes w v
  | big =>
    simp only [natToBytes, natFromBytes, List.reverse_reverse]
    exact fromLeBytes_toLeBytes w v

theorem natToBytes_length (w v : Nat) (e : Endian) :
    (natToBytes w v e).length = w := by
  cases e <;> simp [natToBytes, toLeBytes_length]

/-- Two's-complement decoding for the signed integer of byte width w; models
from_le_bytes/from_be_bytes of iN (src/primitive.rs lines 176-181
instantiated at the signed types): a bit pattern below half the range is
itself, otherwise it is shifted down by the full range. -/
def intFromBytes (w : Nat) (bytes : List Nat) (endian : Endian) : Int :=
  let n := natFromBytes bytes endian
  if 2 * n < 256 ^ w then (n : Int) else (n : Int) - (256 : Int) ^ w

/-- Two's-complement encoding for the signed integer of byte width w; models
to_le_bytes/to_be_bytes of iN (src/primitive.rs lines 183-189 at the signed
types): the value reduced into the range of the unsigned width is encoded. -/
def intToBytes (w : Nat) (v : Int) (endian : Endian) : List Nat :=
  natToBytes w (v % (256 : Int) ^ w).toNat endian

/-- Models BoolError (src/primitive.rs line 224): carries the offending
byte. -/
structure BoolError where
  byte : Nat
deriving DecidableEq

/-- Models bool::try_from_bytes (src/primitive.rs lines 50-56). The Rust
Bytes type is the one-element array carrying a single byte, modelled here as
that byte. -/
def bool_try_from_bytes (b : Nat) (_ : Endian) : Except BoolError Bool :=
  match b with
  | 0 => Except.ok false
  | 1 => Except.ok true
  | _ => Except.error ⟨b⟩

/-- Models bool::to_bytes (src/primitive.rs lines 58-61): the byte is
self as u8. -/
def bool_to_bytes (b : Bool) (_ : Endian) : Nat :=
  if b then 1 else 0

/-- Models char::from_u32 validity: a valid Unicode scalar value is below
the surrogate range or between it and 0x10FFFF inclusive. -/
def isUnicodeScalar (n : Nat) : Bool :=
  decide (n < 0xD800) || (decide (0xDFFF < n) && decide (n ≤ 0x10FFFF))

/-- Models CharError (src/primitive.rs line 205): carries the offending
32-bit value. -/
structure CharError where
  value : Nat
deriving DecidableEq

/-- Models char::try_from_bytes (src/primitive.rs lines 68-76): the bytes
are decoded as a u32 under the endian choice and checked to be a valid
Unicode scalar value. A char value is modelled as its scalar value. -/
def char_try_from_bytes (bytes : List Nat) (endian : Endian) :
    Except CharError Nat :=
  let ch := natFromBytes bytes endian
  if isUnicodeScalar ch then Except.ok ch else Except.error ⟨ch⟩

/-- Models char::to_bytes (src/primitive.rs lines 78-81): the scalar value
as u32 is encoded under the endian choice. -/
def char_to_bytes (c : Nat) (endian : Endian) : List Nat :=
  natToBytes 4 c endian

/-- Models the Rust unit impl try_from_bytes (src/primitive.rs lines
29-32): always Ok with an empty byte array. -/
def unit_try_from_bytes (_ : Endian) : Except Empty Unit :=
  Except.ok ()

/-- Models the Rust unit impl to_bytes (src/primitive.rs lines 34-37). -/
def unit_to_bytes (_ : Unit) (_ : Endian) : List Nat :=
  []

/-- Models NonZeroError (src/primitive.rs line 243): carries the original
zeroable value. -/
structure NonZeroError (α : Type) where
  value : α
deriving DecidableEq

/-- Models NonZero of an unsigned integer: the underlying value together
with the guarantee that it is nonzero. -/
abbrev NonZeroNat := { v : Nat // v ≠ 0 }

/-- Models NonZero of a signed integer. -/
abbrev NonZeroInt := { v : Int // v ≠ 0 }

/-- Models NonZeroPrimitive::from_zeroable at unsigned widths
(src/primitive.rs lines 149-154): NonZero::new succeeds exactly on nonzero
values, and on zero the error carries the original value. -/
def nzNat_from_zeroable (v : Nat) : Except (NonZeroError Nat) NonZeroNat :=
  if h : v = 0 then Except.error ⟨v⟩ else Except.ok ⟨v, h⟩

/-- Models NonZeroPrimitive::to_zeroable at unsigned widths
(src/primitive.rs lines 156-160): NonZero::get. -/
def nzNat_to_zeroable (n : NonZeroNat) : Nat :=
  n.val

/-- Models NonZero try_from_bytes at unsigned widths (src/primitive.rs
lines 132-136): decode the zeroable form, then refine. -/
def nzNat_try_from_bytes (bytes : List Nat) (endian : Endian) :
    Except (NonZeroError Nat) NonZeroNat :=
  nzNat_from_zeroable (natFromBytes bytes endian)

/-- Models NonZero to_bytes at unsigned widths (src/primitive.rs lines
138-141): encode the zeroable form. -/
def nzNat_to_bytes (w : Nat) (n : NonZeroNat) (endian : Endian) : List Nat :=
  natToBytes w (nzNat_to_zeroable n) endian

/-- Models NonZeroPrimitive::from_zeroable at signed widths
(src/primitive.rs lines 149-154). -/
def nzInt_from_zeroable (v : Int) : Except (NonZeroError Int) NonZeroInt :=
  if h : v = 0 then Except.error ⟨v⟩ else Except.ok ⟨v, h⟩

/-- Models NonZeroPrimitive::to_zeroable at signed widths (src/primitive.rs
lines 156-160). -/
def nzInt_to_zeroable (n : NonZeroInt) : Int :=
  n.val

/-- Models NonZero try_from_bytes at signed widths (src/primitive.rs lines
132-136). -/
def nzInt_try_from_bytes (w : Nat) (bytes : List Nat) (endian : Endian) :
    Except (NonZeroError Int) NonZeroInt :=
  nzInt_from_zeroable (intFromBytes w bytes endian)

/-- Models NonZero to_bytes at signed widths (src/primitive.rs lines
138-141). -/
def nzInt_to_bytes (w : Nat) (n : NonZeroInt) (endian : Endian) : List Nat :=
  intToBytes w (nzInt_to_zeroable n) endian

/-- Models f32 byte encoding at the bit-pattern level (src/primitive.rs
prim! at f32; f32::to_le_bytes is to_bits().to_le_bytes()). -/
def f32_to_bytes (bits : Nat) (endian : Endian) : List Nat :=
  natToBytes 4 bits endian

/-- Models f32 byte decoding at the bit-pattern level. -/
def f32_from_bytes (bytes : List Nat) (endian : Endian) : Nat :=
  natFromBytes bytes endian

/-- Models f64 byte encoding at the bit-pattern level. -/
def f64_to_bytes (bits : Nat) (endian : Endian) : List Nat :=
  natToBytes 8 bits endian

/-- Models f64 byte decoding at the bit-pattern level. -/
def f64_from_bytes (bytes : List Nat) (endian : Endian) : Nat :=
  natFromBytes bytes endian

/-- Models decoder::Error (src/decoder.rs lines 42-67): the per-attempt
outcome taxonomy of the decoding protocol. -/
inductive DError (ε : Type) where
  | eof
  | dataRemains
  | incomplete (needed : Size)
  | fatal (error : ε)
deriving DecidableEq

/-- Models Error::from_infallible (src/decoder.rs lines 94-100): an error
over the uninhabited error type embeds into any error taxonomy; the Fatal
case is impossible. -/
def DError.from_infallible {ε : Type} : DError Empty → DError ε
  | DError.eof => DError.eof
  | DError.dataRemains => DError.dataRemains
  | DError.incomplete needed => DError.incomplete needed
  | DError.fatal e => e.elim

/-- Models Decoder::decode of the fixed-width unsigned decoders U8 through
U128 and Usize (src/binary.rs lines 178-192, define! macro), and of F32/F64
at the bit-pattern level. The Rust decode mutates a borrowed slice; here
the outcome is paired with the slice the Rust source reference points at
after the call: split_at_checked fails when fewer than w bytes remain,
reporting Incomplete with the exact shortfall and leaving the slice
untouched; otherwise the first w bytes are interpreted under the byte
order and the slice is advanced past them. -/
def uintDecode (w : Nat) (order : Endian) (src : List Nat) :
    Except (DError Empty) Nat × List Nat :=
  if src.length < w then
    (Except.error (DError.incomplete (Size.new (w - src.length))), src)
  else
    (Except.ok (natFromBytes (src.take w) order), src.drop w)

/-- Models Decoder::decode of the fixed-width signed decoders I8 through
I128 and Isize (src/binary.rs lines 178-192, define! macro at the signed
types). -/
def sintDecode (w : Nat) (order : Endian) (src : List Nat) :
    Except (DError Empty) Int × List Nat :=
  if src.length < w then
    (Except.error (DError.incomplete (Size.new (w - src.length))), src)
  else
    (Except.ok (intFromBytes w (src.take w) order), src.drop w)

/-- Models Bool::decode (src/binary.rs lines 41-60): delegate to the U8
decoder on a copy of the slice, accept bytes 0 and 1 (committing the
delegate's advance), and report Fatal on any other byte with the slice left
untouched; delegate errors pass through from_infallible with the slice left
untouched. The Rust error type BoolError here is a unit struct. -/
def boolDecode (order : Endian) (src : List Nat) :
    Except (DError Unit) Bool × List Nat :=
  match uintDecode 1 order src with
  | (Except.ok 0, rest) => (Except.ok false, rest)
  | (Except.ok 1, rest) => (Except.ok true, rest)
  | (Except.ok _, _) => (Except.error (DError.fatal ()), src)
  | (Except.error e, _) => (Except.error (DError.from_infallible e), src)

/-- Models Char::decode (src/binary.rs lines 108-122): delegate to the U32
decoder on a copy of the slice, accept exactly the valid Unicode scalar
values (committing the delegate's advance), and report Fatal otherwise with
the slice left untouched. CharTryFromError carries no data. -/
def charDecode (order : Endian) (src : List Nat) :
    Except (DError Unit) Nat × List Nat :=
  match uintDecode 4 order src with
  | (Except.ok bits, rest) =>
    if isUnicodeScalar bits then (Except.ok bits, rest)
    else (Except.error (DError.fatal ()), src)
  | (Except.error e, _) => (Except.error (DError.from_infallible e), src)

/-- Models Decoder::decode_eof (src/decoder.rs lines 29-37): run decode;
success and Fatal pass through, and any other error becomes Eof when the
slice is empty after the attempt, DataRemains otherwise. -/
def decode_eof {α ε : Type}
    (decode : List Nat → Except (DError ε) α × List Nat)
    (src : List Nat) : Except (DError ε) α × List Nat :=
  match decode src with
  | (Except.ok item, src2) => (Except.ok item, src2)
  | (Except.error (DError.fatal e), src2) =>
    (Except.error (DError.fatal e), src2)
  | (Except.error _, src2) =>
    if src2.isEmpty then (Except.error DError.eof, src2)
    else (Except.error DError.dataRemains, src2)

/-- Models ReadBuf (src/read_buf.rs lines 11-22): a borrowed byte buffer
with filled and init cursors. Memory is modelled as a list of bytes whose
length is the capacity; positions at or beyond init hold whatever value the
list carries and are never read by safe code. -/
structure ReadBuf where
  buf : List Nat
  filled : Nat
  init : Nat
deriving DecidableEq

/-- Models the documented invariants of ReadBuf (src/read_buf.rs lines
14-22 and _assert_invariants, lines 31-39): filled never exceeds init, and
init never exceeds the capacity. -/
def ReadBuf.Invariant (rb : ReadBuf) : Prop :=
  rb.filled ≤ rb.init ∧ rb.init ≤ rb.buf.length

instance (rb : ReadBuf) : Decidable rb.Invariant := by
  unfold ReadBuf.Invariant
  infer_instance

/-- Models the buffer error enum (src/read_buf.rs lines 473-478). The Rust
name is Error. -/
inductive ReadBufError where
  | filledTooLarge
  | initTooLarge
  | sliceTooLarge
deriving DecidableEq

/-- Models ReadBuf::new (src/read_buf.rs lines 42-54): all bytes
initialized and unfilled. -/
def ReadBuf.new (buf : List Nat) : ReadBuf :=
  { buf := buf, filled := 0, init := buf.length }

/-- Models ReadBuf::from_uninit (src/read_buf.rs lines 56-65): all bytes
uninitialized and unfilled; the list models whatever bytes the
uninitialized memory happens to hold. -/
def ReadBuf.from_uninit (buf : List Nat) : ReadBuf :=
  { buf := buf, filled := 0, init := 0 }

/-- Models ReadBuf::clear (src/read_buf.rs lines 114-121): reset filled to
zero, leaving init untouched. -/
def ReadBuf.clear (rb : ReadBuf) : ReadBuf :=
  { rb with filled := 0 }

/-- Models ReadBuf::try_set_filled (src/read_buf.rs lines 138-149): set the
filled cursor when the requested length does not exceed init, otherwise
fail with FilledTooLarge and leave the buffer untouched. -/
def ReadBuf.try_set_filled (rb : ReadBuf) (filled : Nat) :
    Except ReadBufError ReadBuf :=
  if filled ≤ rb.init then Except.ok { rb with filled := filled }
  else Except.error ReadBufError.filledTooLarge

/-- Models ReadBuf::try_advance (src/read_buf.rs lines 180-188): advance
filled by n via try_set_filled; the checked_add overflow case of the source
cannot occur over Nat. -/
def ReadBuf.try_advance (rb : ReadBuf) (n : Nat) :
    Except ReadBufError ReadBuf :=
  rb.try_set_filled (rb.filled + n)

/-- Models ReadBuf::initialize_uninit (src/read_buf.rs lines 310-331): fill
the uninitialized tail with the byte and raise init to the capacity. -/
def ReadBuf.initialize_uninit (rb : ReadBuf) (byte : Nat) : ReadBuf :=
  { rb with
    buf := rb.buf.take rb.init ++
      List.replicate (rb.buf.length - rb.init) byte,
    init := rb.buf.length }

/-- Models ReadBuf::initialize_unfilled (src/read_buf.rs lines 333-360):
fill the whole unfilled region with the byte, reinitializing
already-initialized unfilled bytes too, and raise init to the capacity. -/
def ReadBuf.initialize_unfilled (rb : ReadBuf) (byte : Nat) : ReadBuf :=
  { rb with
    buf := rb.buf.take rb.filled ++
      List.replicate (rb.buf.length - rb.filled) byte,
    init := rb.buf.length }

/-- Models ReadBuf::try_push_slice (src/read_buf.rs lines 362-398): when
the slice fits in the unfilled region (whose length is capacity minus
filled), copy it in, advance filled past it, and raise init to the new
filled cursor if it was below; otherwise fail with SliceTooLarge and leave
the buffer untouched. -/
def ReadBuf.try_push_slice (rb : ReadBuf) (slice : List Nat) :
    Except ReadBufError ReadBuf :=
  if rb.filled + slice.length ≤ rb.buf.length then
    Except.ok
      { buf := rb.buf.take rb.filled ++ slice ++
          rb.buf.drop (rb.filled + slice.length),
        filled := rb.filled + slice.length,
        init := max rb.init (rb.filled + slice.length) }
  else Except.error ReadBufError.sliceTooLarge

/-- Mutating safe public operations of ReadBuf, for stating properties of
arbitrary call sequences. The length and slice accessors (capacity,
filled_len, unfilled_len, init_len, uninit_len, filled, init, unfilled,
uninit) take the buffer by shared or mutable borrow and change no cursor,
so they are omitted; the panicking wrappers set_filled, advance and
push_slice (src/read_buf.rs lines 151-160, 190-200, 400-410) unwrap the
try operations, so every post-state they can produce is a post-state of the
try operation they wrap. -/
inductive ReadBufOp where
  | clear
  | trySetFilled (filled : Nat)
  | tryAdvance (n : Nat)
  | initializeUninit (byte : Nat)
  | initializeUnfilled (byte : Nat)
  | tryPushSlice (slice : List Nat)
deriving DecidableEq

/-- Applies one mutating safe public operation; a failing try operation
returns its error to the caller and leaves the buffer unchanged, as in the
source. -/
def ReadBuf.step (rb : ReadBuf) : ReadBufOp → ReadBuf
  | ReadBufOp.clear => rb.clear
  | ReadBufOp.trySetFilled n =>
    match rb.try_set_filled n with
    | Except.ok rb2 => rb2
    | Except.error _ => rb
  | ReadBufOp.tryAdvance n =>
    match rb.try_advance n with
    | Except.ok rb2 => rb2
    | Except.error _ => rb
  | ReadBufOp.initializeUninit b => rb.initialize_uninit b
  | ReadBufOp.initializeUnfilled b => rb.initialize_unfilled b
  | ReadBufOp.tryPushSlice s =>
    match rb.try_push_slice s with
    | Except.ok rb2 => rb2
    | Except.error _ => rb

theorem Size.new_of_pos {n : Nat} (h : 0 < n) : Size.new n = Size.known n := by
  cases n with
  | zero => exact absurd h (by decide)
  | succ m => rfl

theorem natFromBytes_singleton (b : Nat) (e : Endian) :
    natFromBytes [b] e = b := by
  cases e <;> simp [natFromBytes, fromLeBytes]

theorem natToBytes_one (v : Nat) (e : Endian) :
    natToBytes 1 v e = [v % 256] := by
  cases e <;> simp [natToBytes, toLeBytes]

theorem natFromBytes_natToBytes_of_lt {w v : Nat} (e : Endian)
    (h : v < 256 ^ w) : natFromBytes (natToBytes w v e) e = v := by
  rw [natFromBytes_natToBytes, Nat.mod_eq_of_lt h]

theorem uintDecode_cons_one (e : Endian) (b : Nat) (rest : List Nat) :
    uintDecode 1 e (b :: rest) = (Except.ok b, rest) := by
  simp [uintDecode, natFromBytes_singleton]

/-- Claim C8: Size::new(0) is Unknown and Size::new(n) for positive n is
Known(n); Size::map never yields Known(0): mapping Unknown gives Unknown,
and mapping Known(n) gives Size::new of the closure's result, hence Unknown
when that result is zero. -/
theorem size_normalization :
    Size.new 0 = Size.unknown ∧
    (∀ n : Nat, 0 < n → Size.new n = Size.known n) ∧
    (∀ (f : Nat → Nat) (s : Size), Size.map f s ≠ Size.known 0) ∧
    (∀ f : Nat → Nat, Size.map f Size.unknown = Size.unknown) ∧
    (∀ (f : Nat → Nat) (n : Nat),
      Size.map f (Size.known n) = Size.new (f n)) := by
  refine ⟨rfl, fun n h => Size.new_of_pos h, ?_, fun f => rfl, fun f n => rfl⟩
  intro f s
  cases s with
  | unknown => simp [Size.map]
  | known n =>
    simp only [Size.map]
    cases hf : f n with
    | zero => simp [Size.new]
    | succ m => simp [Size.new]

/-- Claim C8 witness: the hypothesized conjunct evaluated at 3. -/
theorem size_normalization_witness : Size.new 3 = Size.known 3 :=
  size_normalization.2.1 3 (by decide)

/-- Claim C5: decoding a bool is total over the one-byte input space and
never gets stuck: byte 0 decodes to false, byte 1 to true, and every other
byte yields a Fatal decode error with the input slice left unconsumed; the
same holds of the bool primitive codec, whose error carries the byte. -/
theorem bool_decode_total :
    (∀ (e : Endian) (rest : List Nat),
      boolDecode e (0 :: rest) = (Except.ok false, rest)) ∧
    (∀ (e : Endian) (rest : List Nat),
      boolDecode e (1 :: rest) = (Except.ok true, rest)) ∧
    (∀ (e : Endian) (b : Nat) (rest : List Nat), 2 ≤ b →
      boolDecode e (b :: rest) =
        (Except.error (DError.fatal ()), b :: rest)) ∧
    (∀ e : Endian, bool_try_from_bytes 0 e = Except.ok false) ∧
    (∀ e : Endian, bool_try_from_bytes 1 e = Except.ok true) ∧
    (∀ (e : Endian) (b : Nat), 2 ≤ b →
      bool_try_from_bytes b e = Except.error ⟨b⟩) := by
  refine ⟨?_, ?_, ?_, fun e => rfl, fun e => rfl, ?_⟩
  · intro e rest
    simp [boolDecode, uintDecode_cons_one]
  · intro e rest
    simp [boolDecode, uintDecode_cons_one]
  · intro e b rest h
    match b, h with
    | m + 2, _ => simp [boolDecode, uintDecode_cons_one]
  · intro e b h
    match b, h with
    | m + 2, _ => rfl

/-- Claim C5 witness: the hypothesized conjuncts evaluated at byte 2. -/
theorem bool_decode_total_witness :
    boolDecode Endian.little (2 :: [7]) =
      (Except.error (DError.fatal ()), 2 :: [7]) ∧
    bool_try_from_bytes 2 Endian.big = Except.error ⟨2⟩ :=
  ⟨bool_decode_total.2.2.1 Endian.little 2 [7] (by decide),
   bool_decode_total.2.2.2.2.2 Endian.big 2 (by decide)⟩

/-- Claim C10: for the one-byte decoders (Bool, U8, I8) and the one-byte
primitive codecs (bool, u8, i8), the decode outcome and the number of bytes
consumed are independent of the chosen byte order, and so are the one-byte
encodings. -/
theorem one_byte_order_independent :
    (∀ (e1 e2 : Endian) (src : List Nat),
      boolDecode e1 src = boolDecode e2 src) ∧
    (∀ (e1 e2 : Endian) (src : List Nat),
      uintDecode 1 e1 src = uintDecode 1 e2 src) ∧
    (∀ (e1 e2 : Endian) (src : List Nat),
      sintDecode 1 e1 src = sintDecode 1 e2 src) ∧
    (∀ (e1 e2 : Endian) (b : Nat),
      bool_try_from_bytes b e1 = bool_try_from_bytes b e2) ∧
    (∀ (e1 e2 : Endian) (b : Bool),
      bool_to_bytes b e1 = bool_to_bytes b e2) ∧
    (∀ (e1 e2 : Endian) (b : Nat),
      natFromBytes [b] e1 = natFromBytes [b] e2) ∧
    (∀ (e1 e2 : Endian) (v : Nat),
      natToBytes 1 v e1 = natToBytes 1 v e2) ∧
    (∀ (e1 e2 : Endian) (b : Nat),
      intFromBytes 1 [b] e1 = intFromBytes 1 [b] e2) ∧
    (∀ (e1 e2 : Endian) (v : Int),
      intToBytes 1 v e1 = intToBytes 1 v e2) := by
  refine ⟨?_, ?_, ?_, fun e1 e2 b => rfl, fun e1 e2 b => rfl, ?_, ?_, ?_, ?_⟩
  · intro e1 e2 src
    cases src with
    | nil => rfl
    | cons b rest => simp [boolDecode, uintDecode_cons_one]
  · intro e1 e2 src
    cases src with
    | nil => rfl
    | cons b rest => simp [uintDecode_cons_one]
  · intro e1 e2 src
    cases src with
    | nil => rfl
    | cons b rest =>
      simp [sintDecode, intFromBytes, natFromBytes_singleton]
  · intro e1 e2 b
    simp [natFromBytes_singleton]
  · intro e1 e2 v
    simp [natToBytes_one]
  · intro e1 e2 b
    simp [intFromBytes, natFromBytes_singleton]
  · intro e1 e2 v
    simp [intToBytes, natToBytes_one]

theorem uintDecode_incomplete {w : Nat} (e : Endian) {src : List Nat}
    (h : src.length < w) :
    uintDecode w e src =
      (Except.error (DError.incomplete (Size.known (w - src.length))), src) := by
  simp only [uintDecode, if_pos h, Size.new_of_pos (Nat.sub_pos_of_lt h)]

theorem sintDecode_incomplete {w : Nat} (e : Endian) {src : List Nat}
    (h : src.length < w) :
    sintDecode w e src =
      (Except.error (DError.incomplete (Size.known (w - src.length))), src) := by
  simp only [sintDecode, if_pos h, Size.new_of_pos (Nat.sub_pos_of_lt h)]

theorem uintDecode_exact {w : Nat} (e : Endian) {src : List Nat}
    (h : src.length = w) :
    uintDecode w e src = (Except.ok (natFromBytes src e), []) := by
  subst h
  simp [uintDecode]

/-- Claim C2: every fixed-width concrete decoder of byte width w, given an
input slice shorter than w, returns Incomplete with needed Known and equal
to the exact shortfall, and leaves the input slice unchanged. The unsigned
conjunct covers U8 through U128, Usize and the float decoders at the
bit-pattern level; the signed conjunct covers I8 through I128 and Isize;
Bool (width 1) and Char (width 4) delegate to U8 and U32 and pass the
delegate's Incomplete through unchanged. -/
theorem fixed_width_incomplete :
    (∀ (w : Nat) (e : Endian) (src : List Nat), src.length < w →
      uintDecode w e src =
        (Except.error (DError.incomplete (Size.known (w - src.length))),
          src)) ∧
    (∀ (w : Nat) (e : Endian) (src : List Nat), src.length < w →
      sintDecode w e src =
        (Except.error (DError.incomplete (Size.known (w - src.length))),
          src)) ∧
    (∀ (e : Endian) (src : List Nat), src.length < 1 →
      boolDecode e src =
        (Except.error (DError.incomplete (Size.known (1 - src.length))),
          src)) ∧
    (∀ (e : Endian) (src : List Nat), src.length < 4 →
      charDecode e src =
        (Except.error (DError.incomplete (Size.known (4 - src.length))),
          src)) := by
  refine ⟨fun w e src h => uintDecode_incomplete e h,
    fun w e src h => sintDecode_incomplete e h, ?_, ?_⟩
  · intro e src h
    simp only [boolDecode, uintDecode_incomplete e h]
    simp [DError.from_infallible]
  · intro e src h
    simp only [charDecode, uintDecode_incomplete e h]
    simp [DError.from_infallible]

/-- Claim C2 witness: a one-byte slice put to the four-byte-wide unsigned
decoder and to the Char decoder, and an empty slice put to Bool. -/
theorem fixed_width_incomplete_witness :
    uintDecode 4 Endian.little [9] =
      (Except.error (DError.incomplete (Size.known 3)), [9]) ∧
    boolDecode Endian.big [] =
      (Except.error (DError.incomplete (Size.known 1)), []) ∧
    charDecode Endian.little [1, 2] =
      (Except.error (DError.incomplete (Size.known 2)), [1, 2]) :=
  ⟨fixed_width_incomplete.1 4 Endian.little [9] (by decide),
   fixed_width_incomplete.2.2.1 Endian.big [] (by decide),
   fixed_width_incomplete.2.2.2 Endian.little [1, 2] (by decide)⟩

/-- Claim C3: decode_eof passes every success and every Fatal error of
decode through unchanged; on any other decode error it returns Eof when the
slice is empty after the attempt and DataRemains when bytes remain. For a
fixed-width decoder this means: a slice holding exactly one frame yields
the value, empty input yields Eof, and a leftover partial frame yields
DataRemains. -/
theorem decode_eof_contract :
    (∀ (α ε : Type) (d : List Nat → Except (DError ε) α × List Nat)
      (src src2 : List Nat) (item : α), d src = (Except.ok item, src2) →
      decode_eof d src = (Except.ok item, src2)) ∧
    (∀ (α ε : Type) (d : List Nat → Except (DError ε) α × List Nat)
      (src src2 : List Nat) (err : ε),
      d src = (Except.error (DError.fatal err), src2) →
      decode_eof d src = (Except.error (DError.fatal err), src2)) ∧
    (∀ (α ε : Type) (d : List Nat → Except (DError ε) α × List Nat)
      (src src2 : List Nat) (err : DError ε),
      d src = (Except.error err, src2) →
      (∀ x : ε, err ≠ DError.fatal x) →
      decode_eof d src =
        (Except.error
          (if src2.isEmpty then DError.eof else DError.dataRemains),
          src2)) ∧
    (∀ (w : Nat) (e : Endian) (src : List Nat), src.length = w →
      decode_eof (uintDecode w e) src =
        (Except.ok (natFromBytes src e), [])) ∧
    (∀ (w : Nat) (e : Endian), 0 < w →
      decode_eof (uintDecode w e) [] = (Except.error DError.eof, [])) ∧
    (∀ (w : Nat) (e : Endian) (src : List Nat), src ≠ [] → src.length < w →
      decode_eof (uintDecode w e) src =
        (Except.error DError.dataRemains, src)) := by
  refine ⟨?_, ?_, ?_, ?_, ?_, ?_⟩
  · intro α ε d src src2 item h
    simp [decode_eof, h]
  · intro α ε d src src2 err h
    simp [decode_eof, h]
  · intro α ε d src src2 err h hnf
    cases err with
    | fatal x => exact absurd rfl (hnf x)
    | eof =>
      simp only [decode_eof, h]
      cases h2 : src2.isEmpty <;> simp [h2]
    | dataRemains =>
      simp only [decode_eof, h]
      cases h2 : src2.isEmpty <;> simp [h2]
    | incomplete needed =>
      simp only [decode_eof, h]
      cases h2 : src2.isEmpty <;> simp [h2]
  · intro w e src h
    simp [decode_eof, uintDecode_exact e h]
  · intro w e hw
    have h : ([] : List Nat).length < w := hw
    simp [decode_eof, uintDecode_incomplete e h]
  · intro w e src hne h
    simp only [decode_eof, uintDecode_incomplete e h]
    simp [List.isEmpty_iff, hne]

/-- Claim C3 witness: the hypothesized conjuncts evaluated on the two-byte
little-endian unsigned decoder and on a constant decoder. -/
theorem decode_eof_contract_witness :
    decode_eof (uintDecode 2 Endian.little) [1, 2] = (Except.ok 513, []) ∧
    decode_eof (uintDecode 2 Endian.little) [] =
      (Except.error DError.eof, []) ∧
    decode_eof (uintDecode 2 Endian.little) [1] =
      (Except.error DError.dataRemains, [1]) ∧
    decode_eof (fun src => (Except.error (DError.fatal 7), src)) [1] =
      ((Except.error (DError.fatal 7) : Except (DError Nat) Nat), [1]) :=
  ⟨decode_eof_contract.2.2.2.1 2 Endian.little [1, 2] (by decide),
   decode_eof_contract.2.2.2.2.1 2 Endian.little (by decide),
   decode_eof_contract.2.2.2.2.2 2 Endian.little [1] (by decide) (by decide),
   decode_eof_contract.2.1 Nat Nat
     (fun src => (Except.error (DError.fatal 7), src)) [1] [1] 7 rfl⟩

theorem intFromBytes_intToBytes {w : Nat} {v : Int} (e : Endian)
    (h1 : -((256 : Int) ^ w) ≤ 2 * v) (h2 : 2 * v < (256 : Int) ^ w) :
    intFromBytes w (intToBytes w v e) e = v := by
  simp only [intFromBytes, intToBytes]
  rw [natFromBytes_natToBytes]
  have hpow : ((256 ^ w : Nat) : Int) = (256 : Int) ^ w := by push_cast; rfl
  have hM : (0 : Int) < (256 : Int) ^ w := by positivity
  have hmod_nonneg : 0 ≤ v % (256 : Int) ^ w :=
    Int.emod_nonneg v (ne_of_gt hM)
  have hmod_lt : v % (256 : Int) ^ w < (256 : Int) ^ w :=
    Int.emod_lt_of_pos v hM
  have hcast : ((v % (256 : Int) ^ w).toNat : Int) = v % (256 : Int) ^ w :=
    Int.toNat_of_nonneg hmod_nonneg
  have hlt : (v % (256 : Int) ^ w).toNat < 256 ^ w := by omega
  rw [Nat.mod_eq_of_lt hlt]
  have hv : v % (256 : Int) ^ w = v ∨
      v % (256 : Int) ^ w = v + (256 : Int) ^ w := by
    rcases le_or_lt 0 v with hv0 | hv0
    · left
      exact Int.emod_eq_of_lt hv0 (by omega)
    · right
      have hshift : (v + (256 : Int) ^ w * 1) % (256 : Int) ^ w =
          v % (256 : Int) ^ w :=
        Int.add_mul_emod_self_left v ((256 : Int) ^ w) 1
      rw [mul_one] at hshift
      rw [← hshift]
      exact Int.emod_eq_of_lt (by omega) (by omega)
  rcases hv with hv | hv <;> split <;> rename_i hc <;> omega

/-- Claim C1: for every primitive type of the closed family and each byte
order, decoding the encoding of any in-range value reproduces the value
exactly. The first conjunct covers the unsigned integers of every byte
width (u8 through u128 and usize); the second covers the signed integers
(i8 through i128 and isize) over the two's-complement range; then bool,
char over the valid Unicode scalar values, the NonZero refinements of the
unsigned and signed widths, unit, and f32/f64 at the bit-pattern level, so
NaN payloads are never canonicalized. -/
theorem primitive_round_trip :
    (∀ (w v : Nat) (e : Endian), v < 256 ^ w →
      natFromBytes (natToBytes w v e) e = v) ∧
    (∀ (w : Nat) (v : Int) (e : Endian),
      -((256 : Int) ^ w) ≤ 2 * v → 2 * v < (256 : Int) ^ w →
      intFromBytes w (intToBytes w v e) e = v) ∧
    (∀ (b : Bool) (e : Endian),
      bool_try_from_bytes (bool_to_bytes b e) e = Except.ok b) ∧
    (∀ (c : Nat) (e : Endian), isUnicodeScalar c = true →
      char_try_from_bytes (char_to_bytes c e) e = Except.ok c) ∧
    (∀ (w : Nat) (n : NonZeroNat) (e : Endian), n.val < 256 ^ w →
      nzNat_try_from_bytes (nzNat_to_bytes w n e) e = Except.ok n) ∧
    (∀ (w : Nat) (n : NonZeroInt) (e : Endian),
      -((256 : Int) ^ w) ≤ 2 * n.val → 2 * n.val < (256 : Int) ^ w →
      nzInt_try_from_bytes w (nzInt_to_bytes w n e) e = Except.ok n) ∧
    (∀ e : Endian, unit_try_from_bytes e = Except.ok ()) ∧
    (∀ (bits : Nat) (e : Endian), bits < 256 ^ 4 →
      f32_from_bytes (f32_to_bytes bits e) e = bits) ∧
    (∀ (bits : Nat) (e : Endian), bits < 256 ^ 8 →
      f64_from_bytes (f64_to_bytes bits e) e = bits) := by
  refine ⟨fun w v e h => natFromBytes_natToBytes_of_lt e h,
    fun w v e h1 h2 => intFromBytes_intToBytes e h1 h2, ?_, ?_, ?_, ?_,
    fun e => rfl,
    fun bits e h => natFromBytes_natToBytes_of_lt e h,
    fun bits e h => natFromBytes_natToBytes_of_lt e h⟩
  · intro b e
    cases b <;> rfl
  · intro c e h
    have hlt : c < 256 ^ 4 := by
      have : c ≤ 0x10FFFF := by
        simp only [isUnicodeScalar, Bool.or_eq_true, Bool.and_eq_true,
          decide_eq_true_eq] at h
        omega
      omega
    simp only [char_try_from_bytes, char_to_bytes,
      natFromBytes_natToBytes_of_lt e hlt, h, if_pos]
  · intro w n e h
    simp only [nzNat_try_from_bytes, nzNat_to_bytes, nzNat_to_zeroable,
      natFromBytes_natToBytes_of_lt e h, nzNat_from_zeroable, n.prop,
      dif_neg, not_false_iff]
  · intro w n e h1 h2
    simp only [nzInt_try_from_bytes, nzInt_to_bytes, nzInt_to_zeroable,
      intFromBytes_intToBytes e h1 h2, nzInt_from_zeroable, n.prop,
      dif_neg, not_false_iff]

/-- Claim C1 witness: round trips evaluated at concrete in-range values,
including a big-endian two-byte value, a negative signed value, the char
at 0x10FFFF and a NaN f32 bit pattern with a nonstandard payload. -/
theorem primitive_round_trip_witness :
    natFromBytes (natToBytes 2 0xBEEF Endian.big) Endian.big = 0xBEEF ∧
    intFromBytes 2 (intToBytes 2 (-300) Endian.little) Endian.little =
      -300 ∧
    char_try_from_bytes (char_to_bytes 0x10FFFF Endian.big) Endian.big =
      Except.ok 0x10FFFF ∧
    nzNat_try_from_bytes (nzNat_to_bytes 1 ⟨255, by decide⟩ Endian.little)
      Endian.little = Except.ok ⟨255, by decide⟩ ∧
    nzInt_try_from_bytes 1 (nzInt_to_bytes 1 ⟨-1, by decide⟩ Endian.big)
      Endian.big = Except.ok ⟨-1, by decide⟩ ∧
    f32_from_bytes (f32_to_bytes 0x7FC00001 Endian.little) Endian.little =
      0x7FC00001 :=
  ⟨primitive_round_trip.1 2 0xBEEF Endian.big (by decide),
   primitive_round_trip.2.1 2 (-300) Endian.little (by decide) (by decide),
   primitive_round_trip.2.2.2.1 0x10FFFF Endian.big (by decide),
   primitive_round_trip.2.2.2.2.1 1 ⟨255, by decide⟩ Endian.little
     (by decide),
   primitive_round_trip.2.2.2.2.2.1 1 ⟨-1, by decide⟩ Endian.big
     (by decide) (by decide),
   primitive_round_trip.2.2.2.2.2.2.2.1 0x7FC00001 Endian.little
     (by decide)⟩

/-- Claim C6: the Char decoder reads exactly 4 bytes, interprets them as an
unsigned 32-bit integer in its configured byte order, returns Ok of the
scalar value exactly when it is a valid Unicode scalar value and a Fatal
error with the input left unconsumed otherwise; little-endian bytes of
0x00000041 decode to the scalar value of the letter A, and bytes encoding
0x0000D800, a surrogate, produce Fatal. -/
theorem char_decode_validity :
    (∀ (e : Endian) (src : List Nat), 4 ≤ src.length →
      charDecode e src =
        (if isUnicodeScalar (natFromBytes (src.take 4) e)
          then (Except.ok (natFromBytes (src.take 4) e), src.drop 4)
          else (Except.error (DError.fatal ()), src))) ∧
    charDecode Endian.little [0x41, 0, 0, 0] = (Except.ok 0x41, []) ∧
    charDecode Endian.little [0x00, 0xD8, 0, 0] =
      (Except.error (DError.fatal ()), [0x00, 0xD8, 0, 0]) := by
  refine ⟨?_, by decide, by decide⟩
  intro e src h
  have hnl : ¬ src.length < 4 := not_lt.mpr h
  simp only [charDecode, uintDecode, if_neg hnl]

/-- Claim C6 witness: the hypothesized conjunct evaluated on a five-byte
big-endian input. -/
theorem char_decode_validity_witness :
    charDecode Endian.big [0, 0, 0, 0x41, 9] =
      (if isUnicodeScalar
          (natFromBytes ([0, 0, 0, 0x41, 9].take 4) Endian.big)
        then (Except.ok
          (natFromBytes ([0, 0, 0, 0x41, 9].take 4) Endian.big),
          [0, 0, 0, 0x41, 9].drop 4)
        else (Except.error (DError.fatal ()), [0, 0, 0, 0x41, 9])) :=
  char_decode_validity.1 Endian.big [0, 0, 0, 0x41, 9] (by decide)

/-- Claim C7: converting a zeroable value to the nonzero form fails exactly
on zero, carrying the original value in the error, and succeeds on any
nonzero value; converting back is total and round-trips losslessly; and
the nonzero byte encoding is identical to the zeroable encoding, at both
the unsigned and the signed widths. -/
theorem nonzero_duality :
    (∀ v : Nat, nzNat_from_zeroable v = Except.error ⟨v⟩ ↔ v = 0) ∧
    (∀ (v : Nat) (h : v ≠ 0), nzNat_from_zeroable v = Except.ok ⟨v, h⟩) ∧
    (∀ (v : Nat) (n : NonZeroNat),
      nzNat_from_zeroable v = Except.ok n → nzNat_to_zeroable n = v) ∧
    (∀ n : NonZeroNat,
      nzNat_from_zeroable (nzNat_to_zeroable n) = Except.ok n) ∧
    (∀ (w : Nat) (n : NonZeroNat) (e : Endian),
      nzNat_to_bytes w n e = natToBytes w (nzNat_to_zeroable n) e) ∧
    (∀ v : Int, nzInt_from_zeroable v = Except.error ⟨v⟩ ↔ v = 0) ∧
    (∀ (v : Int) (h : v ≠ 0), nzInt_from_zeroable v = Except.ok ⟨v, h⟩) ∧
    (∀ (v : Int) (n : NonZeroInt),
      nzInt_from_zeroable v = Except.ok n → nzInt_to_zeroable n = v) ∧
    (∀ n : NonZeroInt,
      nzInt_from_zeroable (nzInt_to_zeroable n) = Except.ok n) ∧
    (∀ (w : Nat) (n : NonZeroInt) (e : Endian),
      nzInt_to_bytes w n e = intToBytes w (nzInt_to_zeroable n) e) := by
  refine ⟨?_, ?_, ?_, ?_, fun w n e => rfl, ?_, ?_, ?_, ?_,
    fun w n e => rfl⟩
  · intro v
    constructor
    · intro h
      by_contra hv
      simp [nzNat_from_zeroable, hv] at h
    · intro h
      simp [nzNat_from_zeroable, h]
  · intro v h
    simp [nzNat_from_zeroable, h]
  · intro v n h
    by_cases hv : v = 0
    · simp [nzNat_from_zeroable, hv] at h
    · simp only [nzNat_from_zeroable, dif_neg hv, Except.ok.injEq] at h
      rw [← h]
      rfl
  · intro n
    simp [nzNat_from_zeroable, nzNat_to_zeroable, n.prop]
  · intro v
    constructor
    · intro h
      by_contra hv
      simp [nzInt_from_zeroable, hv] at h
    · intro h
      simp [nzInt_from_zeroable, h]
  · intro v h
    simp [nzInt_from_zeroable, h]
  · intro v n h
    by_cases hv : v = 0
    · simp [nzInt_from_zeroable, hv] at h
    · simp only [nzInt_from_zeroable, dif_neg hv, Except.ok.injEq] at h
      rw [← h]
      rfl
  · intro n
    simp [nzInt_from_zeroable, nzInt_to_zeroable, n.prop]

/-- Claim C7 witness: the hypothesized conjuncts evaluated at 5 and -5. -/
theorem nonzero_duality_witness :
    nzNat_from_zeroable 5 = Except.ok ⟨5, by decide⟩ ∧
    nzNat_to_zeroable ⟨5, by decide⟩ = 5 ∧
    nzInt_from_zeroable (-5) = Except.ok ⟨-5, by decide⟩ ∧
    nzInt_to_zeroable ⟨-5, by decide⟩ = -5 :=
  ⟨nonzero_duality.2.1 5 (by decide),
   nonzero_duality.2.2.1 5 ⟨5, by decide⟩ (nonzero_duality.2.1 5 (by decide)),
   nonzero_duality.2.2.2.2.2.2.1 (-5) (by decide),
   nonzero_duality.2.2.2.2.2.2.2.1 (-5) ⟨-5, by decide⟩
     (nonzero_duality.2.2.2.2.2.2.1 (-5) (by decide))⟩

theorem ReadBuf.step_Invariant (rb : ReadBuf) (op : ReadBufOp)
    (h : rb.Invariant) : (rb.step op).Invariant := by
  obtain ⟨h1, h2⟩ := h
  cases op with
  | clear => exact ⟨Nat.zero_le _, h2⟩
  | trySetFilled n =>
    by_cases hle : n ≤ rb.init
    · simp only [ReadBuf.step, ReadBuf.try_set_filled, if_pos hle]
      exact ⟨hle, h2⟩
    · simp only [ReadBuf.step, ReadBuf.try_set_filled, if_neg hle]
      exact ⟨h1, h2⟩
  | tryAdvance n =>
    by_cases hle : rb.filled + n ≤ rb.init
    · simp only [ReadBuf.step, ReadBuf.try_advance, ReadBuf.try_set_filled,
        if_pos hle]
      exact ⟨hle, h2⟩
    · simp only [ReadBuf.step, ReadBuf.try_advance, ReadBuf.try_set_filled,
        if_neg hle]
      exact ⟨h1, h2⟩
  | initializeUninit b =>
    refine ⟨le_trans h1 h2, ?_⟩
    simp only [ReadBuf.step, ReadBuf.initialize_uninit, List.length_append,
      List.length_take, List.length_replicate]
    omega
  | initializeUnfilled b =>
    refine ⟨le_trans h1 h2, ?_⟩
    simp only [ReadBuf.step, ReadBuf.initialize_unfilled, List.length_append,
      List.length_take, List.length_replicate]
    omega
  | tryPushSlice s =>
    by_cases hle : rb.filled + s.length ≤ rb.buf.length
    · simp only [ReadBuf.step, ReadBuf.try_push_slice, if_pos hle]
      refine ⟨le_max_right _ _, ?_⟩
      simp only [List.length_append, List.length_take, List.length_drop]
      omega
    · simp only [ReadBuf.step, ReadBuf.try_push_slice, if_neg hle]
      exact ⟨h1, h2⟩

theorem ReadBuf.foldl_Invariant (rb : ReadBuf) (ops : List ReadBufOp)
    (h : rb.Invariant) : (ops.foldl ReadBuf.step rb).Invariant := by
  induction ops generalizing rb with
  | nil => exact h
  | cons op ops ih => exact ih _ (ReadBuf.step_Invariant rb op h)

/-- Claim C4: from either constructor, every sequence of safe public
operations preserves filled at most init at most capacity; try_push_slice
either succeeds, advancing filled by exactly the slice length and raising
init to at least the new filled cursor, or fails with SliceTooLarge leaving
the buffer unchanged. -/
theorem read_buf_invariant :
    (∀ (buf : List Nat) (ops : List ReadBufOp),
      (ops.foldl ReadBuf.step (ReadBuf.new buf)).Invariant) ∧
    (∀ (buf : List Nat) (ops : List ReadBufOp),
      (ops.foldl ReadBuf.step (ReadBuf.from_uninit buf)).Invariant) ∧
    (∀ (rb : ReadBuf) (s : List Nat) (rb2 : ReadBuf), rb.Invariant →
      rb.try_push_slice s = Except.ok rb2 →
      rb2.filled = rb.filled + s.length ∧ rb2.filled ≤ rb2.init ∧
        rb2.init = max rb.init rb2.filled ∧ rb2.Invariant) ∧
    (∀ (rb : ReadBuf) (s : List Nat) (err : ReadBufError),
      rb.try_push_slice s = Except.error err →
      err = ReadBufError.sliceTooLarge ∧
        rb.step (ReadBufOp.tryPushSlice s) = rb) := by
  refine ⟨?_, ?_, ?_, ?_⟩
  · intro buf ops
    exact ReadBuf.foldl_Invariant _ ops ⟨Nat.zero_le _, le_refl _⟩
  · intro buf ops
    exact ReadBuf.foldl_Invariant _ ops ⟨le_refl _, Nat.zero_le _⟩
  · intro rb s rb2 h hok
    have hstep : rb.step (ReadBufOp.tryPushSlice s) = rb2 := by
      simp only [ReadBuf.step, hok]
    have hinv := hstep ▸ ReadBuf.step_Invariant rb (ReadBufOp.tryPushSlice s) h
    by_cases hle : rb.filled + s.length ≤ rb.buf.length
    · simp only [ReadBuf.try_push_slice, if_pos hle, Except.ok.injEq] at hok
      rw [← hok]
      exact ⟨rfl, le_max_right _ _, rfl, hok ▸ hinv⟩
    · simp only [ReadBuf.try_push_slice, if_neg hle] at hok
      exact Except.noConfusion hok
  · intro rb s err herr
    by_cases hle : rb.filled + s.length ≤ rb.buf.length
    · simp only [ReadBuf.try_push_slice, if_pos hle] at herr
      exact Except.noConfusion herr
    · simp only [ReadBuf.try_push_slice, if_neg hle,
        Except.error.injEq] at herr
      refine ⟨herr.symm, ?_⟩
      simp only [ReadBuf.step, ReadBuf.try_push_slice, if_neg hle]

/-- Claim C4 witness: two pushes into a three-byte uninitialized buffer,
the second overflowing. -/
theorem read_buf_invariant_witness :
    ((ReadBuf.from_uninit [9, 9, 9]).try_push_slice [1, 2] =
      Except.ok { buf := [1, 2, 9], filled := 2, init := 2 }) ∧
    ({ buf := [1, 2, 9], filled := 2, init := 2 } : ReadBuf).filled =
      (ReadBuf.from_uninit [9, 9, 9]).filled + [1, 2].length ∧
    (({ buf := [1, 2, 9], filled := 2, init := 2 } : ReadBuf).try_push_slice
      [3, 4] = Except.error ReadBufError.sliceTooLarge) ∧
    ([ReadBufOp.tryPushSlice [1, 2]].foldl ReadBuf.step
      (ReadBuf.from_uninit [9, 9, 9])).Invariant :=
  ⟨by decide,
   (read_buf_invariant.2.2.1 (ReadBuf.from_uninit [9, 9, 9]) [1, 2]
     { buf := [1, 2, 9], filled := 2, init := 2 }
     (by decide) (by decide)).1,
   by decide,
   read_buf_invariant.2.1 [9, 9, 9] [ReadBufOp.tryPushSlice [1, 2]]⟩

/-- Claim C9 counterexample: try_set_filled is a safe public operation, yet
from a buffer with filled at 2 it moves filled backwards to 1, which is
neither at least its previous value nor exactly 0; the claimed cursor
monotonicity therefore fails at this input. -/
theorem cursor_monotonicity_counterexample :
    ((ReadBuf.new [0, 0]).step (ReadBufOp.trySetFilled 2)).Invariant ∧
    ((ReadBuf.new [0, 0]).step (ReadBufOp.trySetFilled 2)).filled = 2 ∧
    (((ReadBuf.new [0, 0]).step (ReadBufOp.trySetFilled 2)).step
      (ReadBufOp.trySetFilled 1)).filled = 1 ∧
    ¬ (((ReadBuf.new [0, 0]).step (ReadBufOp.trySetFilled 2)).filled ≤
        (((ReadBuf.new [0, 0]).step (ReadBufOp.trySetFilled 2)).step
          (ReadBufOp.trySetFilled 1)).filled ∨
      (((ReadBuf.new [0, 0]).step (ReadBufOp.trySetFilled 2)).step
        (ReadBufOp.trySetFilled 1)).filled = 0) := by
  decide

/-- Claim C9 amended: across every safe public operation, init never
decreases; filled is at least its previous value or exactly 0 for every
operation except set_filled/try_set_filled, which instead set filled to any
requested value not exceeding init, leaving init unchanged; clear resets
filled to 0 with init unchanged. -/
theorem cursor_monotonicity_amended :
    (∀ (rb : ReadBuf) (op : ReadBufOp), rb.Invariant →
      rb.init ≤ (rb.step op).init) ∧
    (∀ (rb : ReadBuf) (op : ReadBufOp), rb.Invariant →
      (∀ n, op ≠ ReadBufOp.trySetFilled n) →
      rb.filled ≤ (rb.step op).filled ∨ (rb.step op).filled = 0) ∧
    (∀ (rb : ReadBuf) (n : Nat), rb.Invariant →
      (rb.step (ReadBufOp.trySetFilled n)).init = rb.init ∧
        (rb.step (ReadBufOp.trySetFilled n)).filled ≤ rb.init) ∧
    (∀ rb : ReadBuf,
      (rb.step ReadBufOp.clear).filled = 0 ∧
        (rb.step ReadBufOp.clear).init = rb.init) := by
  refine ⟨?_, ?_, ?_, fun rb => ⟨rfl, rfl⟩⟩
  · intro rb op h
    obtain ⟨h1, h2⟩ := h
    cases op with
    | clear => exact le_refl _
    | trySetFilled n =>
      by_cases hle : n ≤ rb.init <;>
        simp [ReadBuf.step, ReadBuf.try_set_filled, hle]
    | tryAdvance n =>
      by_cases hle : rb.filled + n ≤ rb.init <;>
        simp [ReadBuf.step, ReadBuf.try_advance, ReadBuf.try_set_filled, hle]
    | initializeUninit b =>
      simp only [ReadBuf.step, ReadBuf.initialize_uninit]
      exact h2
    | initializeUnfilled b =>
      simp only [ReadBuf.step, ReadBuf.initialize_unfilled]
      exact h2
    | tryPushSlice s =>
      by_cases hle : rb.filled + s.length ≤ rb.buf.length
      · simp only [ReadBuf.step, ReadBuf.try_push_slice, if_pos hle]
        exact le_max_left _ _
      · simp [ReadBuf.step, ReadBuf.try_push_slice, hle]
  · intro rb op h hns
    obtain ⟨h1, h2⟩ := h
    cases op with
    | clear => exact Or.inr rfl
    | trySetFilled n => exact absurd rfl (hns n)
    | tryAdvance n =>
      by_cases hle : rb.filled + n ≤ rb.init
      · left
        simp [ReadBuf.step, ReadBuf.try_advance, ReadBuf.try_set_filled, hle]
      · left
        simp [ReadBuf.step, ReadBuf.try_advance, ReadBuf.try_set_filled, hle]
    | initializeUninit b => exact Or.inl (le_refl _)
    | initializeUnfilled b => exact Or.inl (le_refl _)
    | tryPushSlice s =>
      by_cases hle : rb.filled + s.length ≤ rb.buf.length
      · left
        simp [ReadBuf.step, ReadBuf.try_push_slice, hle]
      · left
        simp [ReadBuf.step, ReadBuf.try_push_slice, hle]
  · intro rb n h
    by_cases hle : n ≤ rb.init <;>
      simp [ReadBuf.step, ReadBuf.try_set_filled, hle, h.1]

/-- Claim C9 amended witness: the amended statement evaluated on a
two-byte buffer with an advance, a backwards set_filled and a clear. -/
theorem cursor_monotonicity_amended_witness :
    (ReadBuf.new [7, 8]).init ≤
      ((ReadBuf.new [7, 8]).step (ReadBufOp.tryAdvance 2)).init ∧
    ((ReadBuf.new [7, 8]).filled ≤
      ((ReadBuf.new [7, 8]).step (ReadBufOp.tryAdvance 2)).filled ∨
      ((ReadBuf.new [7, 8]).step (ReadBufOp.tryAdvance 2)).filled = 0) ∧
    ((ReadBuf.new [7, 8]).step (ReadBufOp.trySetFilled 1)).init =
      (ReadBuf.new [7, 8]).init ∧
    ((ReadBuf.new [7, 8]).step (ReadBufOp.trySetFilled 1)).filled ≤
      (ReadBuf.new [7, 8]).init :=
  ⟨cursor_monotonicity_amended.1 (ReadBuf.new [7, 8])
     (ReadBufOp.tryAdvance 2) (by decide),
   cursor_monotonicity_amended.2.1 (ReadBuf.new [7, 8])
     (ReadBufOp.tryAdvance 2) (by decide) (fun n => by simp),
   (cursor_monotonicity_amended.2.2.1 (ReadBuf.new [7, 8]) 1 (by decide)).1,
   (cursor_monotonicity_amended.2.2.1 (ReadBuf.new [7, 8]) 1 (by decide)).2⟩
